import Mathlib

/-!
Verification of the cluster-diagnosis utility module
(`cluster-diagnosis/utils.py`), shallowly embedded in Lean 4.

The embedding covers the two core subsystems:
* the check-orchestration engine (`ModuleCheck`, `ModuleCheckGroup`), and
* the resource-status sampler (`get_pods_summarized_status_iterator`
  together with the adapter functions `get_pod_status` and
  `get_pods_status_iterator_by_labels`).

External effects (subprocess calls, log lines, sleeps, stdout progress
marks) are made explicit: adapter calls are modelled by oracle outcome
values supplied by an environment, and the observable side effects of a
run are collected into explicit event traces.  Python exceptions are
modelled with `Except`.
-/

namespace ClusterDiagnosis

/-- values of the module-level status constants in `utils.py`. -/
def STATUS_RUNNING : String := "Running"

/-- value of the sentinel status constant `STATUS_NOT_RUNNING`. -/
def STATUS_NOT_RUNNING : String := "Not Running"

/-- Python exceptions that can arise in the modelled code paths. -/
inductive PyError where
  | runtimeError (msg : String)
  | attributeError (msg : String)
  | typeError (msg : String)
  | unboundLocalError (msg : String)
  deriving DecidableEq, Repr

/-- observable events of a check or group run: log lines and the two
outcome hooks of `ModuleCheck`, plus the evaluation of the check
callback itself. -/
inductive CheckEvent where
  | logInfo (msg : String)
  | logError (msg : String)
  | evalCheck
  | successHook
  | failureHook
  deriving DecidableEq, Repr

/-- embedding of class `ModuleCheck`: the `name` field (the summary) and
the boolean outcome of invoking `check_cb` (truthiness of the callback
result at the time `run` evaluates it). -/
structure ModuleCheck where
  name : String
  check_cb : Bool
  deriving DecidableEq, Repr

/-- embedding of `ModuleCheck.get_title`. -/
def ModuleCheck.get_title (c : ModuleCheck) : String :=
  "-- " ++ c.name ++ " --"

/-- embedding of `ModuleCheck.run`: logs the title, evaluates
`check_cb`, then calls `failure_cb` (which logs an error line) and
returns `False`, or calls `success_cb` (which logs an info line) and
returns `True`.  The first component is the event trace, the second the
returned boolean. -/
def ModuleCheck.run (c : ModuleCheck) : List CheckEvent × Bool :=
  if c.check_cb then
    ([.logInfo c.get_title, .evalCheck, .successHook,
      .logInfo "-- Success --\n"], true)
  else
    ([.logInfo c.get_title, .evalCheck, .failureHook,
      .logError "-- Failure --\n"], false)

/-- embedding of class `ModuleCheckGroup`: a name and the `checks`
field, which is `None` (`none`) when the constructor's default argument
is used, otherwise a list. -/
structure ModuleCheckGroup where
  name : String
  checks : Option (List ModuleCheck)
  deriving DecidableEq, Repr

/-- embedding of `ModuleCheckGroup.__init__` called with the default
`checks=None`. -/
def ModuleCheckGroup.ofName (name : String) : ModuleCheckGroup :=
  { name := name, checks := none }

/-- embedding of `ModuleCheckGroup.get_title`. -/
def ModuleCheckGroup.get_title (g : ModuleCheckGroup) : String :=
  "== " ++ g.name ++ " =="

/-- embedding of `ModuleCheckGroup.add`: if `checks` is `None` it is
first replaced by an empty list, then the check is appended at the end;
the (updated) group itself is returned. -/
def ModuleCheckGroup.add (g : ModuleCheckGroup) (c : ModuleCheck) :
    ModuleCheckGroup :=
  { g with checks := some ((g.checks.getD []) ++ [c]) }

/-- the loop body of `ModuleCheckGroup.run`: run the checks in order,
stopping at the first one whose `run` returns `False`. -/
def runChecks : List ModuleCheck → List CheckEvent × Bool
  | [] => ([], true)
  | c :: rest =>
    let r := c.run
    if r.2 then
      let r' := runChecks rest
      (r.1 ++ r'.1, r'.2)
    else
      (r.1, false)

/-- embedding of `ModuleCheckGroup.run`: logs the group title, then
iterates `for check in self.checks`.  When `checks` is `None` (the
default-constructed group before any `add`), iterating `None` raises a
`TypeError`. -/
def ModuleCheckGroup.run (g : ModuleCheckGroup) :
    List CheckEvent × Except PyError Bool :=
  match g.checks with
  | none =>
    ([.logInfo g.get_title],
     .error (.typeError "NoneType object is not iterable"))
  | some cs =>
    let r := runChecks cs
    (CheckEvent.logInfo g.get_title :: r.1, .ok r.2)

/-- concatenated event traces of running each check of a list
unconditionally (used to describe the trace of a short-circuited run on
the prefix that actually executed). -/
def eventsOfChecks : List ModuleCheck → List CheckEvent
  | [] => []
  | c :: rest => (ModuleCheck.run c).1 ++ eventsOfChecks rest

/-- counts how many check callbacks were evaluated in a trace. -/
def evalCount (tr : List CheckEvent) : Nat :=
  tr.countP (fun e => e = CheckEvent.evalCheck)

/-- embedding of the `PodStatus` namedtuple.  The Python field
`namespace` is a Lean keyword and is rendered as `nspace`. -/
structure PodStatus where
  name : String
  ready_status : String
  status : String
  node_name : String
  nspace : String
  deriving DecidableEq, Repr

/-- outcome of the targeted per-pod subprocess query issued by
`get_pod_status`: the command succeeds and its output parses to one
`PodStatus` line, the command itself fails
(`subprocess.CalledProcessError`), or the command succeeds with empty
output (no such pod). -/
inductive TargetedOutcome where
  | ok (ps : PodStatus)
  | cmdFailed
  | emptyOutput
  deriving DecidableEq, Repr

/-- outcome of the label-selector subprocess query issued by
`get_pods_status_iterator_by_labels`: failure of the command, or a
(possibly empty) parsed output. -/
inductive SelectorOutcome where
  | queryFailed
  | output (pods : List PodStatus)
  deriving DecidableEq, Repr

/-- outcome of the host-ip filter subprocess query issued by
`get_pods_status_iterator_by_labels`: failure of the command, or the
(possibly empty) list of pod names that passed the filter. -/
inductive FilterOutcome where
  | queryFailed
  | output (names : List String)
  deriving DecidableEq, Repr

/-- embedding of `get_pod_status`, as a function of the outcome of its
subprocess call.  On `CalledProcessError` the Python function logs and
falls off the end, returning `None`; on empty output it raises
`RuntimeError`; otherwise it parses the line into a `PodStatus`. -/
def get_pod_status (t : TargetedOutcome) : Except PyError (Option PodStatus) :=
  match t with
  | .cmdFailed => .ok none
  | .emptyOutput => .error (.runtimeError "pod is not running on the cluster")
  | .ok ps => .ok (some ps)

/-- embedding of the generator `get_pods_status_iterator_by_labels`, as
a function of the outcomes of its two subprocess calls, fully forced
into a list (the sampler iterates it to exhaustion).  On selector-query
failure or empty selector output the generator returns with no yields;
if the filter query fails, the Python code only logs and then reads the
unassigned local `filter_output`, raising `UnboundLocalError`; on empty
filter output the generator returns with no yields; otherwise it yields
the selected pods whose names passed the filter. -/
def get_pods_status_iterator_by_labels (sel : SelectorOutcome)
    (filt : FilterOutcome) ( must_exist : Bool) :
    Except PyError (List PodStatus) :=
  match sel with
  | .queryFailed => .ok []
  | .output pods =>
    if pods = [] then .ok []
    else
      match filt with
      | .queryFailed =>
        .error (.unboundLocalError "local variable filter_output referenced before assignment")
      | .output names =>
        if names = [] then .ok []
        else .ok (pods.filter (fun p => p.name ∈ names))

/-- adapter outcomes of one sampling round of
`get_pods_summarized_status_iterator`: the outcomes of the selector and
filter queries, and the outcome of the targeted query for each pod
name. -/
structure Round where
  selector : SelectorOutcome
  filter : FilterOutcome
  targeted : String → TargetedOutcome

/-- the per-session map `pod_status_map`, keyed by pod name. -/
abbrev PodMap := List (String × PodStatus)

/-- embedding of Python dict assignment `m[k] = v`: replace the value at
an existing key in place, or append a fresh binding at the end. -/
def dictSet : PodMap → String → PodStatus → PodMap
  | [], k, v => [(k, v)]
  | (k', v') :: rest, k, v =>
    if k' = k then (k, v) :: rest else (k', v') :: dictSet rest k v

/-- embedding of Python dict lookup `m[k]`. -/
def dictGet : PodMap → String → Option PodStatus
  | [], _ => none
  | (k', v') :: rest, k => if k' = k then some v' else dictGet rest k

/-- the per-pod verdict computation in the body of
`get_pods_summarized_status_iterator`: `status_verdict` starts as
`STATUS_RUNNING`; the targeted query result, if it parses, overrides it
with any non-`Running` status; a `RuntimeError` (pod not found) is
caught and mapped to `STATUS_NOT_RUNNING`; but when `get_pod_status`
returns `None` (its command failed), reading `.status` on `None` raises
an uncaught `AttributeError`. -/
def statusVerdictOf (t : TargetedOutcome) : Except PyError String :=
  match get_pod_status t with
  | .error (.runtimeError _) => .ok STATUS_NOT_RUNNING
  | .error e => .error e
  | .ok none => .error (.attributeError "NoneType object has no attribute status")
  | .ok (some ps) =>
    .ok (if ps.status ≠ STATUS_RUNNING then ps.status else STATUS_RUNNING)

/-- the inner `for pod_status in ...` loop of one sampling round:
computes each pod's verdict and stores the rebuilt record under the
pod's name in `pod_status_map`. -/
def processRoundPods (targeted : String → TargetedOutcome) :
    List PodStatus → PodMap → Except PyError PodMap
  | [], m => .ok m
  | p :: rest, m =>
    match statusVerdictOf (targeted p.name) with
    | .error e => .error e
    | .ok v =>
      processRoundPods targeted rest (dictSet m p.name { p with status := v })

/-- one sampling round: query the selector (with an empty host-ip filter
argument and `must_exist=False`), then process every yielded pod. -/
def runRound (r : Round) (m : PodMap) : Except PyError PodMap :=
  match get_pods_status_iterator_by_labels r.selector r.filter false with
  | .error e => .error e
  | .ok pods => processRoundPods r.targeted pods m

/-- observable temporal events of a sampling session: the progress mark
written before each round, the round's adapter query, the fixed
`time.sleep` delay, and the final newline mark. -/
inductive SampleEvent where
  | progressMark
  | roundQuery (attempt : Nat)
  | sleep (units : Nat)
  | progressNewline
  deriving DecidableEq, Repr

/-- the `for attempt in range(0, 5)` loop of
`get_pods_summarized_status_iterator`, with `n` rounds left and `i` the
current attempt index; returns the event trace together with the final
map (or the escaped exception, which aborts the loop). -/
def sampleLoop (env : Nat → Round) :
    Nat → Nat → PodMap → List SampleEvent × Except PyError PodMap
  | 0, _, m => ([], .ok m)
  | n + 1, i, m =>
    match runRound (env i) m with
    | .error e => ([.progressMark, .roundQuery i], .error e)
    | .ok m' =>
      (SampleEvent.progressMark :: SampleEvent.roundQuery i ::
        SampleEvent.sleep 2 :: (sampleLoop env n (i + 1) m').1,
       (sampleLoop env n (i + 1) m').2)

/-- embedding of the generator `get_pods_summarized_status_iterator`,
run to exhaustion: five sampling rounds, then one merged record yielded
per distinct pod name in `pod_status_map`.  An exception escaping a
round aborts the session. -/
def get_pods_summarized_status_iterator (env : Nat → Round) :
    List SampleEvent × Except PyError (List PodStatus) :=
  match (sampleLoop env 5 0 []).2 with
  | .ok m =>
    ((sampleLoop env 5 0 []).1 ++ [SampleEvent.progressNewline],
     .ok (m.map Prod.snd))
  | .error e => ((sampleLoop env 5 0 []).1, .error e)

/-- pod names observed (yielded by the selector query) in one round. -/
def obsNames (r : Round) : List String :=
  match get_pods_status_iterator_by_labels r.selector r.filter false with
  | .ok pods => pods.map (fun p => p.name)
  | .error _ => []

/-- a targeted outcome whose processing cannot raise an uncaught
exception (everything except a failed targeted command). -/
def targetedOk : TargetedOutcome → Bool
  | .cmdFailed => false
  | _ => true

/-- a round whose adapter outcomes cannot make the sampler raise: the
selector query evaluates without an exception and no observed pod's
targeted query fails at the command level. -/
def roundSafe (r : Round) : Bool :=
  match get_pods_status_iterator_by_labels r.selector r.filter false with
  | .error _ => false
  | .ok pods => pods.all (fun p => targetedOk (r.targeted p.name))

/-- attempt indices of the round queries in a trace, in order. -/
def roundAttempts : List SampleEvent → List Nat
  | [] => []
  | .roundQuery i :: rest => i :: roundAttempts rest
  | _ :: rest => roundAttempts rest

/-- the canonical trace of `n` successful rounds starting at attempt
`i`. -/
def canonTrace : Nat → Nat → List SampleEvent
  | 0, _ => []
  | n + 1, i =>
    SampleEvent.progressMark :: SampleEvent.roundQuery i ::
      SampleEvent.sleep 2 :: canonTrace n (i + 1)

/-- true exactly on an `Except.ok` value. -/
def exceptOk {α : Type} : Except PyError α → Bool
  | .ok _ => true
  | .error _ => false

/-- a concrete healthy pod record used in witnesses. -/
def podP : PodStatus :=
  { name := "p"
    ready_status := "1/1"
    status := "Running"
    node_name := "node1"
    nspace := "kube-system" }

/-- environment in which round 0 observes pod `p` in a non-nominal
`CrashLoopBackOff` phase and rounds 1 to 4 observe it `Running`. -/
def envFlap : Nat → Round := fun i =>
  if i = 0 then
    { selector := .output [podP]
      filter := .output ["p"]
      targeted := fun _ => .ok { podP with status := "CrashLoopBackOff" } }
  else
    { selector := .output [podP]
      filter := .output ["p"]
      targeted := fun _ => .ok podP }

/-- environment in which every round observes pod `p` in the
`CrashLoopBackOff` phase. -/
def envCrash : Nat → Round := fun _ =>
  { selector := .output [podP]
    filter := .output ["p"]
    targeted := fun _ => .ok { podP with status := "CrashLoopBackOff" } }

/-- environment in which every selector query returns no pods. -/
def envTrivial : Nat → Round := fun _ =>
  { selector := .output []
    filter := .output []
    targeted := fun _ => .emptyOutput }

/-- environment in which every round observes pod `p` but every targeted
query finds no such pod (adapter-level not-found). -/
def envNotFound : Nat → Round := fun _ =>
  { selector := .output [podP]
    filter := .output ["p"]
    targeted := fun _ => .emptyOutput }

/-- environment in which every round observes pod `p` and the targeted
query command fails outright (`CalledProcessError`). -/
def envTargetedFail : Nat → Round := fun _ =>
  { selector := .output [podP]
    filter := .output ["p"]
    targeted := fun _ => .cmdFailed }

end ClusterDiagnosis

namespace ClusterDiagnosis

theorem evalCount_append (a b : List CheckEvent) :
    evalCount (a ++ b) = evalCount a + evalCount b := by
  simp [evalCount, List.countP_append]

theorem evalCount_run (c : ModuleCheck) : evalCount c.run.1 = 1 := by
  cases h : c.check_cb <;>
    simp [ModuleCheck.run, h, evalCount, List.countP_cons]

theorem evalCount_eventsOfChecks (cs : List ModuleCheck) :
    evalCount (eventsOfChecks cs) = cs.length := by
  induction cs with
  | nil => simp [eventsOfChecks, evalCount]
  | cons c rest ih =>
    simp [eventsOfChecks, evalCount_append, evalCount_run, ih]
    omega

theorem run_false_iff (c : ModuleCheck) : c.run.2 = c.check_cb := by
  cases h : c.check_cb <;> simp [ModuleCheck.run, h]

/-- short-circuit behaviour of the check loop: if the first failing
check sits at index `k`, the loop's trace is exactly the trace of the
first `k + 1` checks and the loop returns `false`. -/
theorem runChecks_shortCircuit (cs : List ModuleCheck) (k : Nat)
    (hk : k < cs.length)
    (hbef : ∀ j, (hj : j < k) → (cs.get ⟨j, hj.trans hk⟩).check_cb = true)
    (hkf : (cs.get ⟨k, hk⟩).check_cb = false) :
    runChecks cs = (eventsOfChecks (cs.take (k + 1)), false) := by
  induction cs generalizing k with
  | nil => exact absurd hk (Nat.not_lt_zero k)
  | cons c rest ih =>
    cases k with
    | zero =>
      have hc : c.check_cb = false := hkf
      simp [runChecks, ModuleCheck.run, hc, eventsOfChecks]
    | succ k' =>
      have hc : c.check_cb = true := hbef 0 (Nat.succ_pos k')
      have hk' : k' < rest.length := Nat.lt_of_succ_lt_succ hk
      have hbef' : ∀ j, (hj : j < k') →
          (rest.get ⟨j, hj.trans hk'⟩).check_cb = true := by
        intro j hj
        exact hbef (j + 1) (Nat.succ_lt_succ hj)
      have := ih k' hk' hbef' hkf
      simp [runChecks, ModuleCheck.run, hc, this, eventsOfChecks]

/-- C2.  Group short-circuit: for every `ModuleCheckGroup` whose checks
are `[c1..cn]`, if `ci.run()` returns false for the first time at index
`k`, then the group's `run()` returns `false` and the callbacks of
checks after index `k` are never evaluated: exactly `k + 1` check
callbacks run. -/
theorem group_run_short_circuit (name : String) (cs : List ModuleCheck)
    (k : Nat) (hk : k < cs.length)
    (hbef : ∀ j, (hj : j < k) → (cs.get ⟨j, hj.trans hk⟩).check_cb = true)
    (hkf : (cs.get ⟨k, hk⟩).check_cb = false) :
    (ModuleCheckGroup.run { name := name, checks := some cs }).2 =
      .ok false ∧
    evalCount (ModuleCheckGroup.run { name := name, checks := some cs }).1 =
      k + 1 := by
  have h := runChecks_shortCircuit cs k hk hbef hkf
  constructor
  · simp [ModuleCheckGroup.run, h]
  · simp [ModuleCheckGroup.run, h, evalCount, List.countP_cons,
      ModuleCheckGroup.get_title]
    have := evalCount_eventsOfChecks (cs.take (k + 1))
    simp [evalCount] at this
    rw [this]
    simp [List.length_take]
    omega

/-- witness for C2 at a concrete group of three checks whose second
check fails. -/
theorem group_run_short_circuit_witness :
    (ModuleCheckGroup.run
      ⟨"g", some [⟨"a", true⟩, ⟨"b", false⟩, ⟨"c", true⟩]⟩).2 = .ok false ∧
    evalCount (ModuleCheckGroup.run
      ⟨"g", some [⟨"a", true⟩, ⟨"b", false⟩, ⟨"c", true⟩]⟩).1 = 2 := by
  exact group_run_short_circuit "g" [⟨"a", true⟩, ⟨"b", false⟩, ⟨"c", true⟩]
    1 (by decide)
    (fun j hj => by
      match j, hj with
      | 0, _ => rfl)
    (by rfl)

/-- C5.  Empty group succeeds: a group whose check sequence is the empty
list returns `true` from `run()`. -/
theorem group_run_empty (name : String) :
    (ModuleCheckGroup.run { name := name, checks := some [] }).2 =
      .ok true := by
  rfl

/-- C6.  Check run contract: `run()` first emits one informational log
line naming the check, then evaluates the check callback; on a truthy
result it invokes the success hook and returns `true`, otherwise it
invokes the failure hook and returns `false`. -/
theorem check_run_contract (c : ModuleCheck) :
    c.run =
      (CheckEvent.logInfo ("-- " ++ c.name ++ " --") ::
        CheckEvent.evalCheck ::
        (if c.check_cb then
          [CheckEvent.successHook, CheckEvent.logInfo "-- Success --\n"]
         else
          [CheckEvent.failureHook, CheckEvent.logError "-- Failure --\n"]),
       c.check_cb) := by
  cases h : c.check_cb <;>
    simp [ModuleCheck.run, ModuleCheck.get_title, h]

/-- C10.  Default-constructed group edge case: `ModuleCheckGroup(name)`
leaves `checks` as `None` (not an empty list); `run()` on such a group
raises a `TypeError` when iterating the checks instead of returning a
boolean; `add` on such a group first creates the empty list, appends at
the end, and returns the updated group; in general `add` appends at the
end of the existing list. -/
theorem group_default_none :
    (∀ name : String, (ModuleCheckGroup.ofName name).checks = none) ∧
    (∀ name : String, (ModuleCheckGroup.ofName name).run.2 =
      .error (.typeError "NoneType object is not iterable")) ∧
    (∀ (name : String) (c : ModuleCheck),
      (ModuleCheckGroup.ofName name).add c =
        { name := name, checks := some [c] }) ∧
    (∀ (g : ModuleCheckGroup) (c : ModuleCheck),
      (g.add c).checks = some ((g.checks.getD []) ++ [c])) := by
  refine ⟨fun name => rfl, fun name => rfl, fun name c => ?_, fun g c => rfl⟩
  simp [ModuleCheckGroup.ofName, ModuleCheckGroup.add]

theorem mem_keys_dictSet (m : PodMap) (k : String) (v : PodStatus) (p : String) :
    p ∈ (dictSet m k v).map Prod.fst ↔ p = k ∨ p ∈ m.map Prod.fst := by
  induction m with
  | nil => simp [dictSet]
  | cons kv rest ih =>
    obtain ⟨k', v'⟩ := kv
    by_cases hk : k' = k
    · subst hk
      simp [dictSet]
    · simp [dictSet, hk, ih]
      tauto

theorem nodup_keys_dictSet (m : PodMap) (k : String) (v : PodStatus)
    (h : (m.map Prod.fst).Nodup) : ((dictSet m k v).map Prod.fst).Nodup := by
  induction m with
  | nil => simp [dictSet]
  | cons kv rest ih =>
    obtain ⟨k', v'⟩ := kv
    rw [List.map_cons, List.nodup_cons] at h
    by_cases hk : k' = k
    · subst hk
      simpa [dictSet] using h
    · rw [dictSet]
      simp only [if_neg hk, List.map_cons, List.nodup_cons]
      refine ⟨?_, ih h.2⟩
      intro hmem
      rcases (mem_keys_dictSet rest k v k').mp hmem with h1 | h1
      · exact hk h1
      · exact h.1 h1

theorem namesInv_dictSet (m : PodMap) (k : String) (v : PodStatus)
    (hm : ∀ a b, (a, b) ∈ m → PodStatus.name b = a) (hv : v.name = k) :
    ∀ a b, (a, b) ∈ dictSet m k v → PodStatus.name b = a := by
  induction m with
  | nil =>
    intro a b hab
    simp [dictSet] at hab
    rw [hab.2, hab.1, hv]
  | cons kv rest ih =>
    obtain ⟨k', v'⟩ := kv
    by_cases hk : k' = k
    · subst hk
      intro a b hab
      rw [dictSet] at hab
      simp at hab
      rcases hab with ⟨ha, hb⟩ | hab
      · rw [hb, ha, hv]
      · exact hm a b (by simp [hab])
    · intro a b hab
      rw [dictSet] at hab
      simp only [if_neg hk] at hab
      rcases List.mem_cons.mp hab with h1 | h1
      · have : a = k' ∧ b = v' := by simpa using h1
        rw [this.2, this.1]
        exact hm k' v' (by simp)
      · exact ih (fun a b hab => hm a b (by simp [hab])) a b h1

theorem dictGet_dictSet_self (m : PodMap) (k : String) (v : PodStatus) :
    dictGet (dictSet m k v) k = some v := by
  induction m with
  | nil => simp [dictSet, dictGet]
  | cons kv rest ih =>
    obtain ⟨k', v'⟩ := kv
    by_cases hk : k' = k
    · subst hk
      simp [dictSet, dictGet]
    · simp [dictSet, dictGet, hk, ih]

theorem dictGet_dictSet_ne (m : PodMap) (k : String) (v : PodStatus)
    (p : String) (h : p ≠ k) : dictGet (dictSet m k v) p = dictGet m p := by
  induction m with
  | nil =>
    have hkp : ¬(k = p) := fun hkp => h hkp.symm
    simp [dictSet, dictGet, hkp]
  | cons kv rest ih =>
    obtain ⟨k', v'⟩ := kv
    by_cases hk : k' = k
    · subst hk
      have : ¬(k' = p) := fun hkp => h hkp.symm
      simp [dictSet, dictGet, this]
    · by_cases hp : k' = p
      · subst hp
        simp [dictSet, dictGet, hk]
      · simp [dictSet, dictGet, hk, hp, ih]

theorem dictGet_mem (m : PodMap) (p : String) (r : PodStatus)
    (h : dictGet m p = some r) : (p, r) ∈ m := by
  induction m with
  | nil => simp [dictGet] at h
  | cons kv rest ih =>
    obtain ⟨k', v'⟩ := kv
    by_cases hp : k' = p
    · subst hp
      simp [dictGet] at h
      simp [h]
    · simp [dictGet, hp] at h
      simp [ih h]

theorem final_names (mf : PodMap)
    (hinv : ∀ a b, (a, b) ∈ mf → PodStatus.name b = a) :
    (mf.map Prod.snd).map PodStatus.name = mf.map Prod.fst := by
  induction mf with
  | nil => simp
  | cons kv rest ih =>
    obtain ⟨a, b⟩ := kv
    simp only [List.map_cons]
    rw [hinv a b (by simp), ih (fun a b hab => hinv a b (by simp [hab]))]

theorem statusVerdict_ok_of_targetedOk (t : TargetedOutcome)
    (h : targetedOk t = true) : ∃ v, statusVerdictOf t = .ok v := by
  cases t with
  | cmdFailed => simp [targetedOk] at h
  | emptyOutput => exact ⟨STATUS_NOT_RUNNING, rfl⟩
  | ok ps => exact ⟨_, rfl⟩

theorem processRoundPods_frame (t : String → TargetedOutcome)
    (ps : List PodStatus) (m mf : PodMap) (p : String)
    (h : processRoundPods t ps m = .ok mf)
    (hp : p ∉ ps.map PodStatus.name) : dictGet mf p = dictGet m p := by
  induction ps generalizing m with
  | nil =>
    simp [processRoundPods] at h
    rw [h]
  | cons q rest ih =>
    rw [processRoundPods] at h
    cases hw : statusVerdictOf (t q.name) with
    | error e => rw [hw] at h; exact absurd h (by simp)
    | ok v =>
      rw [hw] at h
      simp only [List.map_cons, List.mem_cons, not_or] at hp
      rw [ih _ h (by simpa using hp.2), dictGet_dictSet_ne _ _ _ _ hp.1]

theorem processRoundPods_status (t : String → TargetedOutcome)
    (ps : List PodStatus) (m mf : PodMap) (p : String) (v : String)
    (h : processRoundPods t ps m = .ok mf)
    (hp : p ∈ ps.map PodStatus.name)
    (hv : statusVerdictOf (t p) = .ok v) :
    (dictGet mf p).map PodStatus.status = some v := by
  induction ps generalizing m with
  | nil => simp at hp
  | cons q rest ih =>
    rw [processRoundPods] at h
    cases hw : statusVerdictOf (t q.name) with
    | error e => rw [hw] at h; exact absurd h (by simp)
    | ok w =>
      rw [hw] at h
      by_cases hrest : p ∈ rest.map PodStatus.name
      · exact ih _ h hrest
      · have hq : q.name = p := by
          rw [List.map_cons] at hp
          rcases List.mem_cons.mp hp with h1 | h1
          · exact h1.symm
          · exact absurd h1 hrest
        subst hq
        have hwv : w = v := by
          rw [hv] at hw
          exact (Except.ok.inj hw).symm
        subst hwv
        rw [processRoundPods_frame _ _ _ _ _ h hrest, dictGet_dictSet_self]
        rfl

theorem processRoundPods_keys (t : String → TargetedOutcome)
    (ps : List PodStatus) (m mf : PodMap)
    (h : processRoundPods t ps m = .ok mf) (p : String) :
    p ∈ mf.map Prod.fst ↔
      p ∈ ps.map PodStatus.name ∨ p ∈ m.map Prod.fst := by
  induction ps generalizing m with
  | nil =>
    simp [processRoundPods] at h
    rw [h]
    simp
  | cons q rest ih =>
    rw [processRoundPods] at h
    cases hw : statusVerdictOf (t q.name) with
    | error e => rw [hw] at h; exact absurd h (by simp)
    | ok v =>
      rw [hw] at h
      rw [ih _ h, mem_keys_dictSet, List.map_cons, List.mem_cons]
      tauto

theorem processRoundPods_nodup (t : String → TargetedOutcome)
    (ps : List PodStatus) (m mf : PodMap)
    (h : processRoundPods t ps m = .ok mf)
    (hm : (m.map Prod.fst).Nodup) : (mf.map Prod.fst).Nodup := by
  induction ps generalizing m with
  | nil =>
    simp [processRoundPods] at h
    rw [h] at hm
    exact hm
  | cons q rest ih =>
    rw [processRoundPods] at h
    cases hw : statusVerdictOf (t q.name) with
    | error e => rw [hw] at h; exact absurd h (by simp)
    | ok v =>
      rw [hw] at h
      exact ih _ h (nodup_keys_dictSet _ _ _ hm)

theorem processRoundPods_namesInv (t : String → TargetedOutcome)
    (ps : List PodStatus) (m mf : PodMap)
    (h : processRoundPods t ps m = .ok mf)
    (hm : ∀ a b, (a, b) ∈ m → PodStatus.name b = a) :
    ∀ a b, (a, b) ∈ mf → PodStatus.name b = a := by
  induction ps generalizing m with
  | nil =>
    simp [processRoundPods] at h
    rw [h] at hm
    exact hm
  | cons q rest ih =>
    rw [processRoundPods] at h
    cases hw : statusVerdictOf (t q.name) with
    | error e => rw [hw] at h; exact absurd h (by simp)
    | ok v =>
      rw [hw] at h
      exact ih _ h (namesInv_dictSet _ _ _ hm rfl)

theorem processRoundPods_total (t : String → TargetedOutcome)
    (ps : List PodStatus) (m : PodMap)
    (h : ∀ p ∈ ps, targetedOk (t p.name) = true) :
    ∃ mf, processRoundPods t ps m = .ok mf := by
  induction ps generalizing m with
  | nil => exact ⟨m, rfl⟩
  | cons q rest ih =>
    obtain ⟨v, hv⟩ := statusVerdict_ok_of_targetedOk _ (h q (by simp))
    obtain ⟨mf, hmf⟩ := ih (dictSet m q.name { q with status := v })
      (fun p hp => h p (by simp [hp]))
    exact ⟨mf, by rw [processRoundPods, hv]; exact hmf⟩

theorem runRound_elim (r : Round) (m mf : PodMap)
    (h : runRound r m = .ok mf) :
    ∃ pods,
      get_pods_status_iterator_by_labels r.selector r.filter false =
        .ok pods ∧
      obsNames r = pods.map PodStatus.name ∧
      processRoundPods r.targeted pods m = .ok mf := by
  unfold runRound at h
  cases hq : get_pods_status_iterator_by_labels r.selector r.filter false with
  | error e => rw [hq] at h; exact absurd h (by simp)
  | ok pods =>
    rw [hq] at h
    exact ⟨pods, rfl, by unfold obsNames; rw [hq], h⟩

theorem runRound_total (r : Round) (m : PodMap) (h : roundSafe r = true) :
    ∃ mf, runRound r m = .ok mf := by
  unfold roundSafe at h
  cases hq : get_pods_status_iterator_by_labels r.selector r.filter false with
  | error e => rw [hq] at h; simp at h
  | ok pods =>
    rw [hq] at h
    obtain ⟨mf, hmf⟩ := processRoundPods_total r.targeted pods m
      (fun p hp => by
        have := List.all_eq_true.mp h p hp
        simpa using this)
    exact ⟨mf, by unfold runRound; rw [hq]; exact hmf⟩

theorem sampleLoop_frame (env : Nat → Round) :
    ∀ (n i : Nat) (m mf : PodMap) (p : String),
      (sampleLoop env n i m).2 = .ok mf →
      (∀ j, i ≤ j → j < i + n → p ∉ obsNames (env j)) →
      dictGet mf p = dictGet m p := by
  intro n
  induction n with
  | zero =>
    intro i m mf p h _
    simp [sampleLoop] at h
    rw [h]
  | succ n ih =>
    intro i m mf p h hobs
    simp only [sampleLoop] at h
    cases hr : runRound (env i) m with
    | error e => rw [hr] at h; exact absurd h (by simp)
    | ok m1 =>
      rw [hr] at h
      obtain ⟨pods, hq, hobsEq, hproc⟩ := runRound_elim _ _ _ hr
      have h2 : dictGet m1 p = dictGet m p := by
        refine processRoundPods_frame _ _ _ _ _ hproc ?_
        rw [← hobsEq]
        exact hobs i (Nat.le_refl i) (by omega)
      rw [← h2]
      exact ih (i + 1) m1 mf p h
        (fun j hj1 hj2 => hobs j (by omega) (by omega))

theorem sampleLoop_status (env : Nat → Round) :
    ∀ (n i : Nat) (m mf : PodMap) (k : Nat) (p v : String),
      (sampleLoop env n i m).2 = .ok mf →
      i ≤ k → k < i + n →
      p ∈ obsNames (env k) →
      (∀ j, k < j → j < i + n → p ∉ obsNames (env j)) →
      statusVerdictOf ((env k).targeted p) = .ok v →
      (dictGet mf p).map PodStatus.status = some v := by
  intro n
  induction n with
  | zero => intro i m mf k p v _ hik hk _ _ _; omega
  | succ n ih =>
    intro i m mf k p v h hik hk hobs hlast hv
    simp only [sampleLoop] at h
    cases hr : runRound (env i) m with
    | error e => rw [hr] at h; exact absurd h (by simp)
    | ok m1 =>
      rw [hr] at h
      by_cases hki : k = i
      · subst hki
        obtain ⟨pods, hq, hobsEq, hproc⟩ := runRound_elim _ _ _ hr
        have hset : (dictGet m1 p).map PodStatus.status = some v :=
          processRoundPods_status _ _ _ _ _ _ hproc (hobsEq ▸ hobs) hv
        have hframe : dictGet mf p = dictGet m1 p :=
          sampleLoop_frame env n (k + 1) m1 mf p h
            (fun j hj1 hj2 => hlast j (by omega) (by omega))
        rw [hframe]
        exact hset
      · exact ih (i + 1) m1 mf k p v h (by omega) (by omega) hobs
          (fun j hj1 hj2 => hlast j hj1 (by omega)) hv

theorem sampleLoop_keys (env : Nat → Round) :
    ∀ (n i : Nat) (m mf : PodMap),
      (sampleLoop env n i m).2 = .ok mf →
      ∀ p, p ∈ mf.map Prod.fst ↔
        (∃ j, i ≤ j ∧ j < i + n ∧ p ∈ obsNames (env j)) ∨
          p ∈ m.map Prod.fst := by
  intro n
  induction n with
  | zero =>
    intro i m mf h p
    simp [sampleLoop] at h
    subst h
    constructor
    · intro hm
      exact Or.inr hm
    · rintro (⟨j, hj1, hj2, _⟩ | hm)
      · omega
      · exact hm
  | succ n ih =>
    intro i m mf h p
    simp only [sampleLoop] at h
    cases hr : runRound (env i) m with
    | error e => rw [hr] at h; exact absurd h (by simp)
    | ok m1 =>
      rw [hr] at h
      obtain ⟨pods, hq, hobsEq, hproc⟩ := runRound_elim _ _ _ hr
      rw [ih (i + 1) m1 mf h p, processRoundPods_keys _ _ _ _ hproc p,
        ← hobsEq]
      constructor
      · rintro (⟨j, hj1, hj2, hj3⟩ | hio | hm)
        · exact Or.inl ⟨j, by omega, by omega, hj3⟩
        · exact Or.inl ⟨i, by omega, by omega, hio⟩
        · exact Or.inr hm
      · rintro (⟨j, hj1, hj2, hj3⟩ | hm)
        · by_cases hji : j = i
          · subst hji
            exact Or.inr (Or.inl hj3)
          · exact Or.inl ⟨j, by omega, by omega, hj3⟩
        · exact Or.inr (Or.inr hm)

theorem sampleLoop_nodup (env : Nat → Round) :
    ∀ (n i : Nat) (m mf : PodMap),
      (sampleLoop env n i m).2 = .ok mf →
      (m.map Prod.fst).Nodup → (mf.map Prod.fst).Nodup := by
  intro n
  induction n with
  | zero =>
    intro i m mf h hm
    simp [sampleLoop] at h
    subst h
    exact hm
  | succ n ih =>
    intro i m mf h hm
    simp only [sampleLoop] at h
    cases hr : runRound (env i) m with
    | error e => rw [hr] at h; exact absurd h (by simp)
    | ok m1 =>
      rw [hr] at h
      obtain ⟨pods, hq, hobsEq, hproc⟩ := runRound_elim _ _ _ hr
      exact ih (i + 1) m1 mf h (processRoundPods_nodup _ _ _ _ hproc hm)

theorem sampleLoop_namesInv (env : Nat → Round) :
    ∀ (n i : Nat) (m mf : PodMap),
      (sampleLoop env n i m).2 = .ok mf →
      (∀ a b, (a, b) ∈ m → PodStatus.name b = a) →
      ∀ a b, (a, b) ∈ mf → PodStatus.name b = a := by
  intro n
  induction n with
  | zero =>
    intro i m mf h hm
    simp [sampleLoop] at h
    subst h
    exact hm
  | succ n ih =>
    intro i m mf h hm
    simp only [sampleLoop] at h
    cases hr : runRound (env i) m with
    | error e => rw [hr] at h; exact absurd h (by simp)
    | ok m1 =>
      rw [hr] at h
      obtain ⟨pods, hq, hobsEq, hproc⟩ := runRound_elim _ _ _ hr
      exact ih (i + 1) m1 mf h (processRoundPods_namesInv _ _ _ _ hproc hm)

theorem sampleLoop_total (env : Nat → Round) :
    ∀ (n i : Nat) (m : PodMap),
      (∀ j, i ≤ j → j < i + n → roundSafe (env j) = true) →
      ∃ mf, (sampleLoop env n i m).2 = .ok mf := by
  intro n
  induction n with
  | zero =>
    intro i m _
    exact ⟨m, by simp [sampleLoop]⟩
  | succ n ih =>
    intro i m h
    obtain ⟨m1, hm1⟩ := runRound_total (env i) m
      (h i (Nat.le_refl i) (by omega))
    obtain ⟨mf, hmf⟩ := ih (i + 1) m1
      (fun j hj1 hj2 => h j (by omega) (by omega))
    refine ⟨mf, ?_⟩
    simp only [sampleLoop]
    rw [hm1]
    exact hmf

theorem sampleLoop_trace (env : Nat → Round) :
    ∀ (n i : Nat) (m : PodMap),
      exceptOk (sampleLoop env n i m).2 = true →
      (sampleLoop env n i m).1 = canonTrace n i := by
  intro n
  induction n with
  | zero =>
    intro i m _
    simp [sampleLoop, canonTrace]
  | succ n ih =>
    intro i m h
    simp only [sampleLoop] at h ⊢
    cases hr : runRound (env i) m with
    | error e =>
      rw [hr] at h
      simp [exceptOk] at h
    | ok m1 =>
      rw [hr] at h
      have ht := ih (i + 1) m1 h
      simp [hr, canonTrace, ht]

theorem session_ok_elim (env : Nat → Round) (final : List PodStatus)
    (h : (get_pods_summarized_status_iterator env).2 = .ok final) :
    ∃ mf, (sampleLoop env 5 0 []).2 = .ok mf ∧ final = mf.map Prod.snd := by
  unfold get_pods_summarized_status_iterator at h
  cases hr : (sampleLoop env 5 0 []).2 with
  | error e => rw [hr] at h; exact absurd h (by simp)
  | ok mf =>
    rw [hr] at h
    simp at h
    exact ⟨mf, rfl, h.symm⟩

/-- C4.  NotFound sentinel: in a sampling session none of whose rounds
suffers an outright query failure, the session completes without an
escaped exception, and whenever the targeted identity query for a
resource signals not-found (empty output, the adapter's not-found
error), the verdict recorded for that resource in that round is the
sentinel "Not Running". -/
theorem notfound_sentinel (env : Nat → Round)
    (hsafe : ∀ i, i < 5 → roundSafe (env i) = true) :
    exceptOk (get_pods_summarized_status_iterator env).2 = true ∧
    ∀ (i : Nat) (p : String),
      (env i).targeted p = TargetedOutcome.emptyOutput →
      statusVerdictOf ((env i).targeted p) = .ok STATUS_NOT_RUNNING := by
  constructor
  · obtain ⟨mf, hmf⟩ := sampleLoop_total env 5 0 []
      (fun j hj1 hj2 => hsafe j (by omega))
    simp [get_pods_summarized_status_iterator, hmf, exceptOk]
  · intro i p hp
    rw [hp]
    rfl

/-- witness for C4: a session in which every round observes pod `p` and
every targeted query reports not-found completes, and the sentinel is
recorded. -/
theorem notfound_sentinel_witness :
    exceptOk (get_pods_summarized_status_iterator envNotFound).2 = true ∧
    ∀ (i : Nat) (p : String),
      (envNotFound i).targeted p = TargetedOutcome.emptyOutput →
      statusVerdictOf ((envNotFound i).targeted p) =
        .ok STATUS_NOT_RUNNING :=
  notfound_sentinel envNotFound (by decide)

/-- C7.  Sampling schedule: a sampling session that completes performs
exactly the round queries for attempts 0 to 4 — five rounds — and its
full trace is the canonical trace, in which consecutive round queries
are separated by exactly one `sleep 2` delay (`time.sleep(2)`). -/
theorem sampler_schedule (env : Nat → Round)
    (h : exceptOk (get_pods_summarized_status_iterator env).2 = true) :
    roundAttempts (get_pods_summarized_status_iterator env).1 =
      [0, 1, 2, 3, 4] ∧
    (get_pods_summarized_status_iterator env).1 =
      canonTrace 5 0 ++ [SampleEvent.progressNewline] := by
  have hok : exceptOk (sampleLoop env 5 0 []).2 = true := by
    unfold get_pods_summarized_status_iterator at h
    cases hr : (sampleLoop env 5 0 []).2 with
    | error e => rw [hr] at h; simp [exceptOk] at h
    | ok mf => simp [exceptOk]
  have htr := sampleLoop_trace env 5 0 [] hok
  have hs : (get_pods_summarized_status_iterator env).1 =
      canonTrace 5 0 ++ [SampleEvent.progressNewline] := by
    unfold get_pods_summarized_status_iterator
    cases hr : (sampleLoop env 5 0 []).2 with
    | error e => rw [hr] at hok; simp [exceptOk] at hok
    | ok mf => simp [htr]
  refine ⟨?_, hs⟩
  rw [hs]
  rfl

/-- witness for C7: the schedule of a session whose selector query
returns no pods every round. -/
theorem sampler_schedule_witness :
    exceptOk (get_pods_summarized_status_iterator envTrivial).2 = true ∧
    roundAttempts (get_pods_summarized_status_iterator envTrivial).1 =
      [0, 1, 2, 3, 4] :=
  ⟨rfl, (sampler_schedule envTrivial rfl).1⟩

/-- C8.  Sampler completeness: in a sampling session that completes,
every pod name observed by the selector query in any of the 5 rounds
appears exactly once among the names of the finally yielded records. -/
theorem sampler_completeness (env : Nat → Round) (final : List PodStatus)
    (p : String)
    (h : (get_pods_summarized_status_iterator env).2 = .ok final)
    (hobs : ∃ i, i < 5 ∧ p ∈ obsNames (env i)) :
    (final.map PodStatus.name).count p = 1 := by
  obtain ⟨mf, hmf, hfinal⟩ := session_ok_elim env final h
  have hnodup : (mf.map Prod.fst).Nodup :=
    sampleLoop_nodup env 5 0 [] mf hmf (by simp)
  have hinv := sampleLoop_namesInv env 5 0 [] mf hmf (by simp)
  have hmem : p ∈ mf.map Prod.fst := by
    rw [sampleLoop_keys env 5 0 [] mf hmf p]
    obtain ⟨i, hi, hio⟩ := hobs
    exact Or.inl ⟨i, by omega, by omega, hio⟩
  rw [hfinal, final_names mf hinv]
  exact List.count_eq_one_of_mem hnodup hmem

/-- witness for C8: pod `p` is observed in every round of the
`envNotFound` session and appears exactly once in the final yield. -/
theorem sampler_completeness_witness :
    (get_pods_summarized_status_iterator envNotFound).2 =
      .ok [{ podP with status := "Not Running" }] ∧
    (([{ podP with status := "Not Running" }].map PodStatus.name).count
      "p" = 1) :=
  ⟨rfl, sampler_completeness envNotFound
    [{ podP with status := "Not Running" }] "p" rfl
    ⟨0, by omega, by decide⟩⟩

/-- C9.  Last-observation determinism: in a sampling session that
completes, if round `k` is the last round in which the selector query
returned pod name `p`, then the record finally yielded for `p` carries
exactly the verdict computed in round `k` — the verdict of each round is
computed afresh from that round's targeted query alone
(`statusVerdictOf` depends only on the round's own outcome), so earlier
rounds' verdicts do not influence the final status. -/
theorem sampler_last_observation (env : Nat → Round)
    (final : List PodStatus) (k : Nat) (p v : String)
    (h : (get_pods_summarized_status_iterator env).2 = .ok final)
    (hk : k < 5) (hobs : p ∈ obsNames (env k))
    (hlast : ∀ j, k < j → j < 5 → p ∉ obsNames (env j))
    (hv : statusVerdictOf ((env k).targeted p) = .ok v) :
    ∃ r ∈ final, PodStatus.name r = p ∧ PodStatus.status r = v := by
  obtain ⟨mf, hmf, hfinal⟩ := session_ok_elim env final h
  have hst := sampleLoop_status env 5 0 [] mf k p v hmf (by omega)
    (by omega) hobs (fun j hj1 hj2 => hlast j hj1 (by omega)) hv
  cases hg : dictGet mf p with
  | none => rw [hg] at hst; simp at hst
  | some r =>
    rw [hg] at hst
    simp at hst
    have hmem := dictGet_mem mf p r hg
    have hinv := sampleLoop_namesInv env 5 0 [] mf hmf (by simp)
    refine ⟨r, ?_, hinv p r hmem, hst⟩
    rw [hfinal]
    exact List.mem_map_of_mem Prod.snd hmem

/-- witness for C9 on the `envFlap` session: pod `p` is last observed in
round 4, whose verdict is "Running", and the final record for `p`
carries that status. -/
theorem sampler_last_observation_witness :
    ∃ r ∈ [podP], PodStatus.name r = "p" ∧ PodStatus.status r = "Running" :=
  sampler_last_observation envFlap [podP] 4 "p" "Running" rfl
    (by omega) (by decide) (fun j hj1 hj2 => by omega) rfl

/-- counterexample to C1 as stated: in the `envFlap` session, round 0
records the non-nominal status "CrashLoopBackOff" for pod `p`, yet the
final merged status yielded for `p` is the nominal "Running" — a later
nominal observation does overwrite an earlier non-nominal one. -/
theorem sticky_merge_counterexample :
    ("p" ∈ obsNames (envFlap 0)) ∧
    statusVerdictOf ((envFlap 0).targeted "p") = .ok "CrashLoopBackOff" ∧
    "CrashLoopBackOff" ≠ STATUS_RUNNING ∧
    (get_pods_summarized_status_iterator envFlap).2 = .ok [podP] ∧
    podP.status = STATUS_RUNNING := by
  exact ⟨by decide, rfl, by decide, rfl, rfl⟩

/-- C1 (amended).  The merge is last-observation-wins, not sticky: the
final merged status for an identity is the verdict of the last round in
which it was observed; in particular, if that last verdict is
non-nominal, the final merged status is that non-nominal value. -/
theorem sticky_merge_amended (env : Nat → Round)
    (final : List PodStatus) (k : Nat) (p v : String)
    (h : (get_pods_summarized_status_iterator env).2 = .ok final)
    (hk : k < 5) (hobs : p ∈ obsNames (env k))
    (hlast : ∀ j, k < j → j < 5 → p ∉ obsNames (env j))
    (hv : statusVerdictOf ((env k).targeted p) = .ok v)
    (hnn : v ≠ STATUS_RUNNING) :
    ∃ r ∈ final, PodStatus.name r = p ∧ PodStatus.status r = v ∧
      PodStatus.status r ≠ STATUS_RUNNING := by
  obtain ⟨mf, hmf, hfinal⟩ := session_ok_elim env final h
  have hst := sampleLoop_status env 5 0 [] mf k p v hmf (by omega)
    (by omega) hobs (fun j hj1 hj2 => hlast j hj1 (by omega)) hv
  cases hg : dictGet mf p with
  | none => rw [hg] at hst; simp at hst
  | some r =>
    rw [hg] at hst
    simp at hst
    have hmem := dictGet_mem mf p r hg
    have hinv := sampleLoop_namesInv env 5 0 [] mf hmf (by simp)
    refine ⟨r, ?_, hinv p r hmem, hst, ?_⟩
    · rw [hfinal]
      exact List.mem_map_of_mem Prod.snd hmem
    · rw [hst]
      exact hnn

/-- witness for the amended C1 on the `envCrash` session: pod `p` is
last observed in round 4 with the non-nominal verdict
"CrashLoopBackOff", and the final record for `p` carries it. -/
theorem sticky_merge_amended_witness :
    ∃ r ∈ [{ podP with status := "CrashLoopBackOff" }],
      PodStatus.name r = "p" ∧ PodStatus.status r = "CrashLoopBackOff" ∧
      PodStatus.status r ≠ STATUS_RUNNING :=
  sticky_merge_amended envCrash [{ podP with status := "CrashLoopBackOff" }]
    4 "p" "CrashLoopBackOff" rfl (by omega) (by decide)
    (fun j hj1 hj2 => by omega) rfl (by decide)

/-- C3 (divergence witness).  A failed selector query is indeed
recovered as an empty result; but when the targeted identity query fails
outright, `get_pod_status` returns `None` (instead of raising the
`RuntimeError` its sibling documentation promises), and the sampler's
`temp_pod_status.status` then raises an `AttributeError` that is not
caught by its `except RuntimeError` handler: the failure escalates out
of the sampler and aborts the session. -/
theorem queryfailed_escalation_bug :
    (∀ (f : FilterOutcome) (b : Bool),
      get_pods_status_iterator_by_labels SelectorOutcome.queryFailed f b =
        .ok []) ∧
    get_pod_status TargetedOutcome.cmdFailed = .ok none ∧
    (get_pods_summarized_status_iterator envTargetedFail).2 =
      .error (.attributeError "NoneType object has no attribute status") :=
  ⟨fun f b => rfl, rfl, rfl⟩

end ClusterDiagnosis
